import Mathlib

/-!
Verification development for the `display_tools` Home Assistant integration
(`custom_components/display_tools/__init__.py` and `const.py`).

The Python code is shallowly embedded: Python values appearing at the service
boundary are modelled by the inductive type `PyVal`; operations that can raise
exceptions return `Except String α` with the handler-level `try/except`
catch-alls modelled as explicit wrappers; `json.loads` is embedded as a
JSON parser over `List Char` producing `PyVal`, faithful to Python's `json`
module grammar (numbers carrying a fractional part or exponent are kept as
their lexeme in `pyfloat`, since exact float semantics are outside the model).
Python `dict`s are modelled as insertion-ordered association lists with
replace-in-place update, matching CPython dict semantics.
-/

/-- A Python value, as can appear in service-call data of this integration.
`pyfloat` stores the literal text of the float (float arithmetic is never
performed by the code under verification). -/
inductive PyVal where
  | pynone
  | pybool (b : Bool)
  | pyint (n : Int)
  | pyfloat (raw : String)
  | pystr (s : String)
  | pylist (items : List PyVal)
  | pydict (items : List (PyVal × PyVal))

/-- Whitespace stripped by Python `str.strip()` (ASCII subset; the service
payloads contain only ASCII whitespace). -/
def isPyWs (c : Char) : Bool :=
  c = ' ' || c = '\t' || c = '\n' || c = '\r' || c = Char.ofNat 11 || c = Char.ofNat 12

def dropLeadingWs : List Char → List Char
  | [] => []
  | c :: cs => if isPyWs c then dropLeadingWs cs else c :: cs

def dropTrailingWs : List Char → List Char
  | [] => []
  | c :: cs =>
    match dropTrailingWs cs with
    | [] => if isPyWs c then [] else [c]
    | r => c :: r

/-- Python `str.strip()`. -/
def pyStrip (s : String) : String :=
  String.mk (dropTrailingWs (dropLeadingWs s.toList))

/-- Python `str.split(sep)` for a one-character separator: splits on every
occurrence, keeping empty pieces (`"".split(sep) == ['']`). -/
def splitChar (sep : Char) : List Char → List (List Char)
  | [] => [[]]
  | c :: cs =>
    if c = sep then [] :: splitChar sep cs
    else
      match splitChar sep cs with
      | [] => [[c]]
      | g :: gs => (c :: g) :: gs

def pySplit (s : String) (sep : Char) : List String :=
  (splitChar sep s.toList).map String.mk

/-- The comma-split fallback of `handle_get_translations_esphome`:
`[k.strip() for k in s.split(',') if k.strip()]`. -/
def cleanSplit (s : String) : List String :=
  ((pySplit s ',').map pyStrip).filter (fun k => k != "")

/-- Python truthiness (`bool(v)`), used for `if not entity_picture` and
`if keys`. A float literal is falsy when its mantissa digits are all zero. -/
def pyFloatIsZero (raw : String) : Bool :=
  let m := raw.toList.takeWhile (fun c => !(c = 'e' || c = 'E'))
  m.any (fun c => c.isDigit) && m.all (fun c => !(c.isDigit && c != '0'))

def pyTruthy : PyVal → Bool
  | PyVal.pynone => false
  | PyVal.pybool b => b
  | PyVal.pyint n => n != 0
  | PyVal.pyfloat raw => !pyFloatIsZero raw
  | PyVal.pystr s => s != ""
  | PyVal.pylist items => !items.isEmpty
  | PyVal.pydict items => !items.isEmpty

/-- Python `repr` of a string: quote choice and basic escapes. -/
def pyQuoteChar (q c : Char) : List Char :=
  if c = '\\' then ['\\', '\\']
  else if c = q then ['\\', q]
  else if c = '\n' then ['\\', 'n']
  else if c = '\r' then ['\\', 'r']
  else if c = '\t' then ['\\', 't']
  else [c]

def pyQuote (s : String) : String :=
  let q : Char := if s.toList.contains '\'' && !(s.toList.contains '"') then '"' else '\''
  String.mk (q :: (s.toList.foldr (fun c acc => pyQuoteChar q c ++ acc) [q]))

def joinComma : List String → String
  | [] => ""
  | [s] => s
  | s :: rest => s ++ ", " ++ joinComma rest

mutual
/-- Python `repr(v)`. -/
def pyRepr : PyVal → String
  | PyVal.pynone => "None"
  | PyVal.pybool true => "True"
  | PyVal.pybool false => "False"
  | PyVal.pyint n => toString n
  | PyVal.pyfloat raw => raw
  | PyVal.pystr s => pyQuote s
  | PyVal.pylist items => "[" ++ joinComma (pyReprList items) ++ "]"
  | PyVal.pydict kvs => "\x7b" ++ joinComma (pyReprPairs kvs) ++ "\x7d"

def pyReprList : List PyVal → List String
  | [] => []
  | v :: vs => pyRepr v :: pyReprList vs

def pyReprPairs : List (PyVal × PyVal) → List String
  | [] => []
  | (k, v) :: kvs => (pyRepr k ++ ": " ++ pyRepr v) :: pyReprPairs kvs
end

/-- Python `str(v)` (`str` of a `str` is itself; otherwise same as `repr` for
the value shapes reaching this code). -/
def pyStr (v : PyVal) : String :=
  match v with
  | PyVal.pystr s => s
  | other => pyRepr other

/-! ## Embedding of `json.loads` (Python `json` module, default options). -/

def isJsonWs (c : Char) : Bool :=
  c = ' ' || c = '\t' || c = '\n' || c = '\r'

def skipJsonWs : List Char → List Char
  | [] => []
  | c :: cs => if isJsonWs c then skipJsonWs cs else c :: cs

def hexDigitVal (c : Char) : Option Nat :=
  if '0' ≤ c && c ≤ '9' then some (c.toNat - 48)
  else if 'a' ≤ c && c ≤ 'f' then some (c.toNat - 87)
  else if 'A' ≤ c && c ≤ 'F' then some (c.toNat - 55)
  else none

/-- Parse the body of a JSON string (the opening quote already consumed);
returns the decoded characters and the remaining input. -/
def parseJStr : List Char → Except String (List Char × List Char)
  | [] => Except.error "Unterminated string"
  | '"' :: rest => Except.ok ([], rest)
  | '\\' :: rest =>
    match rest with
    | [] => Except.error "Unterminated string"
    | 'u' :: h1 :: h2 :: h3 :: h4 :: rest2 =>
      match hexDigitVal h1, hexDigitVal h2, hexDigitVal h3, hexDigitVal h4 with
      | some a, some b, some c, some d =>
        match parseJStr rest2 with
        | Except.ok (cs, r) =>
          Except.ok (Char.ofNat (((a * 16 + b) * 16 + c) * 16 + d) :: cs, r)
        | Except.error e => Except.error e
      | _, _, _, _ => Except.error "Invalid hex escape"
    | e :: rest2 =>
      let ch : Option Char :=
        if e = '"' then some '"'
        else if e = '\\' then some '\\'
        else if e = '/' then some '/'
        else if e = 'b' then some (Char.ofNat 8)
        else if e = 'f' then some (Char.ofNat 12)
        else if e = 'n' then some '\n'
        else if e = 'r' then some '\r'
        else if e = 't' then some '\t'
        else none
      match ch with
      | some c =>
        match parseJStr rest2 with
        | Except.ok (cs, r) => Except.ok (c :: cs, r)
        | Except.error msg => Except.error msg
      | none => Except.error "Invalid escape"
  | c :: rest =>
    if c.toNat < 32 then Except.error "Invalid control character"
    else
      match parseJStr rest with
      | Except.ok (cs, r) => Except.ok (c :: cs, r)
      | Except.error e => Except.error e

def spanDigits : List Char → List Char × List Char
  | [] => ([], [])
  | c :: cs =>
    if c.isDigit then
      match spanDigits cs with
      | (ds, r) => (c :: ds, r)
    else ([], c :: cs)

def digitsToNat (ds : List Char) : Nat :=
  ds.foldl (fun acc c => acc * 10 + (c.toNat - 48)) 0

/-- Parse a JSON number whose optional minus sign has already been consumed
(`neg` records it). Integer literals become `pyint`; literals with a fraction
or exponent keep their lexeme in `pyfloat`. -/
def parseJNum (neg : Bool) (cs : List Char) : Except String (PyVal × List Char) :=
  match cs with
  | [] => Except.error "Expecting value"
  | c :: rest =>
    if !c.isDigit then Except.error "Expecting value"
    else
      let ip : List Char × List Char :=
        if c = '0' then ([c], rest) else spanDigits (c :: rest)
      let fracStep : Except String (List Char × Bool × List Char) :=
        match ip.2 with
        | '.' :: r2 =>
          match spanDigits r2 with
          | ([], _) => Except.error "Expecting digit after decimal point"
          | (fds, r3) => Except.ok ('.' :: fds, true, r3)
        | _ => Except.ok ([], false, ip.2)
      match fracStep with
      | Except.error e => Except.error e
      | Except.ok (fchars, hasFrac, r3) =>
        let expStep : Except String (List Char × Bool × List Char) :=
          match r3 with
          | e :: r4 =>
            if e = 'e' || e = 'E' then
              match r4 with
              | s :: r5 =>
                if s = '+' || s = '-' then
                  match spanDigits r5 with
                  | ([], _) => Except.error "Expecting digit in exponent"
                  | (eds, r6) => Except.ok (e :: s :: eds, true, r6)
                else
                  match spanDigits r4 with
                  | ([], _) => Except.error "Expecting digit in exponent"
                  | (eds, r6) => Except.ok (e :: eds, true, r6)
              | [] => Except.error "Expecting digit in exponent"
            else Except.ok ([], false, r3)
          | [] => Except.ok ([], false, r3)
        match expStep with
        | Except.error e => Except.error e
        | Except.ok (echars, hasExp, r6) =>
          let sign : List Char := if neg then ['-'] else []
          if hasFrac || hasExp then
            Except.ok (PyVal.pyfloat (String.mk (sign ++ ip.1 ++ fchars ++ echars)), r6)
          else
            let n : Int := Int.ofNat (digitsToNat ip.1)
            Except.ok (PyVal.pyint (if neg then -n else n), r6)

/-- Parser modes: a single value, the items of an array (first item's leading
whitespace already skipped), or the members of an object. -/
inductive JMode where
  | value
  | arrItems (acc : List PyVal)
  | objItems (acc : List (PyVal × PyVal))

def parseJ : Nat → JMode → List Char → Except String (PyVal × List Char)
  | 0, _, _ => Except.error "Too much nesting"
  | fuel + 1, JMode.value, cs =>
    match cs with
    | [] => Except.error "Expecting value"
    | c :: rest =>
      if c = '"' then
        match parseJStr rest with
        | Except.ok (scs, r) => Except.ok (PyVal.pystr (String.mk scs), r)
        | Except.error e => Except.error e
      else if c = '[' then
        match skipJsonWs rest with
        | ']' :: r2 => Except.ok (PyVal.pylist [], r2)
        | r => parseJ fuel (JMode.arrItems []) r
      else if c = Char.ofNat 123 then
        match skipJsonWs rest with
        | c2 :: r2 =>
          if c2 = Char.ofNat 125 then Except.ok (PyVal.pydict [], r2)
          else parseJ fuel (JMode.objItems []) (c2 :: r2)
        | [] => Except.error "Expecting property name"
      else if c = 't' then
        match rest with
        | 'r' :: 'u' :: 'e' :: r => Except.ok (PyVal.pybool true, r)
        | _ => Except.error "Expecting value"
      else if c = 'f' then
        match rest with
        | 'a' :: 'l' :: 's' :: 'e' :: r => Except.ok (PyVal.pybool false, r)
        | _ => Except.error "Expecting value"
      else if c = 'n' then
        match rest with
        | 'u' :: 'l' :: 'l' :: r => Except.ok (PyVal.pynone, r)
        | _ => Except.error "Expecting value"
      else if c = 'N' then
        match rest with
        | 'a' :: 'N' :: r => Except.ok (PyVal.pyfloat "nan", r)
        | _ => Except.error "Expecting value"
      else if c = 'I' then
        match rest with
        | 'n' :: 'f' :: 'i' :: 'n' :: 'i' :: 't' :: 'y' :: r =>
          Except.ok (PyVal.pyfloat "inf", r)
        | _ => Except.error "Expecting value"
      else if c = '-' then
        match rest with
        | 'I' :: 'n' :: 'f' :: 'i' :: 'n' :: 'i' :: 't' :: 'y' :: r =>
          Except.ok (PyVal.pyfloat "-inf", r)
        | _ => parseJNum true rest
      else parseJNum false cs
  | fuel + 1, JMode.arrItems acc, cs =>
    match parseJ fuel JMode.value cs with
    | Except.error e => Except.error e
    | Except.ok (v, r) =>
      match skipJsonWs r with
      | ',' :: r3 => parseJ fuel (JMode.arrItems (acc ++ [v])) (skipJsonWs r3)
      | ']' :: r3 => Except.ok (PyVal.pylist (acc ++ [v]), r3)
      | _ => Except.error "Expecting comma delimiter"
  | fuel + 1, JMode.objItems acc, cs =>
    match cs with
    | '"' :: rest =>
      match parseJStr rest with
      | Except.error e => Except.error e
      | Except.ok (kcs, r) =>
        match skipJsonWs r with
        | ':' :: r3 =>
          match parseJ fuel JMode.value (skipJsonWs r3) with
          | Except.error e => Except.error e
          | Except.ok (v, r4) =>
            match skipJsonWs r4 with
            | ',' :: r6 =>
              parseJ fuel (JMode.objItems (acc ++ [(PyVal.pystr (String.mk kcs), v)]))
                (skipJsonWs r6)
            | c2 :: r6 =>
              if c2 = Char.ofNat 125 then
                Except.ok (PyVal.pydict (acc ++ [(PyVal.pystr (String.mk kcs), v)]), r6)
              else Except.error "Expecting comma delimiter"
            | [] => Except.error "Expecting comma delimiter"
        | _ => Except.error "Expecting colon delimiter"
    | _ => Except.error "Expecting property name"

/-- `json.loads`: an `Except.error` models `json.JSONDecodeError`. -/
def jsonLoads (s : String) : Except String PyVal :=
  match parseJ (2 * s.length + 4) JMode.value (skipJsonWs s.toList) with
  | Except.error e => Except.error e
  | Except.ok (v, r) =>
    match skipJsonWs r with
    | [] => Except.ok v
    | _ => Except.error "Extra data"

/-! ## The `keys` normalizer of `handle_get_translations_esphome`
(lines 306-342 of `__init__.py`). The result `none` is the "no filter"
sentinel (`keys = None`); `some v` is the Python value bound to `keys`. -/

/-- The body of the `try:` block (lines 308-338), for a non-`None` input.
Exceptions raised by modelled operations would surface as `Except.error`;
`json.JSONDecodeError` from `json.loads` is handled inline, exactly as in the
source, so no modelled path constructs an error. -/
def normalizeKeysE (keysRaw : PyVal) : Except String (Option PyVal) :=
  match keysRaw with
  | PyVal.pylist [single] =>
    match single with
    | PyVal.pystr s =>
      match jsonLoads s with
      | Except.ok v => Except.ok (some v)
      | Except.error _ =>
        Except.ok (some (PyVal.pylist ((cleanSplit s).map PyVal.pystr)))
    | other => Except.ok (some (PyVal.pylist [PyVal.pystr (pyStr other)]))
  | PyVal.pylist items => Except.ok (some (PyVal.pylist items))
  | PyVal.pystr s =>
    match jsonLoads s with
    | Except.ok v => Except.ok (some v)
    | Except.error _ =>
      Except.ok (some (PyVal.pylist ((cleanSplit s).map PyVal.pystr)))
  | PyVal.pydict kvs => Except.ok (some (PyVal.pylist (kvs.map Prod.fst)))
  | other => Except.ok (some (PyVal.pylist [PyVal.pystr (pyStr other)]))

/-- The complete normalization: `keys = None` stays the sentinel when
`keys_raw is None`; otherwise the `try:` body runs and the bare
`except Exception:` handler resets `keys = None` on any error. -/
def normalizeKeys (keysRaw : PyVal) : Option PyVal :=
  match keysRaw with
  | PyVal.pynone => none
  | raw =>
    match normalizeKeysE raw with
    | Except.ok keys => keys
    | Except.error _ => none

/-! ## Python dicts as insertion-ordered association lists.
`alistSet` is dict assignment: replace in place when the key exists
(keeping its position), append otherwise. `alistGet?` is `dict.get`. -/

def alistSet {α : Type} : List (String × α) → String → α → List (String × α)
  | [], k, v => [(k, v)]
  | (k0, v0) :: rest, k, v =>
    if k0 = k then (k, v) :: rest else (k0, v0) :: alistSet rest k v

def alistGet? {α : Type} : List (String × α) → String → Option α
  | [], _ => none
  | (k0, v0) :: rest, k => if k0 = k then some v0 else alistGet? rest k

/-! ## Grouping of translations by component
(`handle_get_translations_esphome`, lines 352-364). -/

abbrev Translations := List (String × String)

/-- The guard and extraction of lines 356-360: split the key on `.`; when
there are at least two segments and the first is `component`, yield the
component (second segment) and the final key (last segment). -/
def keyTarget (key : String) : Option (String × String) :=
  match pySplit key '.' with
  | p0 :: p1 :: rest =>
    if p0 = "component" then
      some (p1, List.getLast (p1 :: rest) (List.cons_ne_nil p1 rest))
    else none
  | _ => none

/-- One iteration of the grouping loop: `grouped[component][final_key] = value`
(creating the inner dict when absent). -/
def groupInsert (acc : List (String × Translations)) (key value : String) :
    List (String × Translations) :=
  match keyTarget key with
  | some (component, finalKey) =>
    alistSet acc component (alistSet ((alistGet? acc component).getD []) finalKey value)
  | none => acc

/-- `grouped_translations` built from the flat `translations` mapping. -/
def groupTranslations (trs : Translations) : List (String × Translations) :=
  trs.foldl (fun acc kv => groupInsert acc kv.1 kv.2) []

/-- Lookup of `grouped[c][fk]`. -/
def lookupGrouped (g : List (String × Translations)) (c fk : String) : Option String :=
  (alistGet? g c).bind (fun inner => alistGet? inner fk)

/-- The value of the last entry (in input mapping order) of `trs` whose key
maps to component `c` and final key `fk` — the claimed content of the grouped
result at that slot. -/
def lastMatchValue (trs : Translations) (c fk : String) : Option String :=
  (List.map Prod.snd
    (List.filter (fun kv => decide (keyTarget kv.1 = some (c, fk))) trs)).getLast?

/-! ## `_filter_translations_by_keys` (lines 81-102). `none` models the
Python `keys=None` case; `if not keys` returns the source unchanged for
`None` and for the empty list. -/

def filterTranslationsByKeys : Translations → Option (List String) → Translations
  | translations, none => translations
  | translations, some ks =>
    if ks = [] then translations
    else ks.foldl
      (fun acc key => alistSet acc key ((alistGet? translations key).getD key)) []

/-! ## The persisted status record update
(`handle_get_translations_esphome`, lines 366-380):
`stored_data = await store.async_load() or {}` followed by
`stored_data.update({...five fields...})` and `store.async_save(stored_data)`. -/

/-- `grouped_translations` as the JSON-serializable Python object stored. -/
def encodeGrouped (g : List (String × Translations)) : PyVal :=
  PyVal.pydict (g.map (fun ci =>
    (PyVal.pystr ci.1,
     PyVal.pydict (ci.2.map (fun kv => (PyVal.pystr kv.1, PyVal.pystr kv.2))))))

/-- The record that `store.async_save` receives: the loaded record (or `{}`
when absent/empty) with exactly the five fields assigned, in the order of the
`dict.update` literal. -/
def esphomeStoredUpdate (loaded : Option (List (String × PyVal)))
    (language category : String) (grouped : List (String × Translations))
    (translationsCount requestedKeysCount : Nat) : List (String × PyVal) :=
  alistSet (alistSet (alistSet (alistSet (alistSet (loaded.getD [])
    "language" (PyVal.pystr language))
    "category" (PyVal.pystr category))
    "grouped_translations" (encodeGrouped grouped))
    "translations_count" (PyVal.pyint (Int.ofNat translationsCount)))
    "requested_keys_count" (PyVal.pyint (Int.ofNat requestedKeysCount))

/-! ## Cover image processing (`_download_and_process_cover`, lines 104-187,
and `COVER_SIZES` from `const.py`). Images carry their PIL mode, integer
dimensions, and a pixel function; resampled pixel contents (LANCZOS) and
RGB conversion of pixel data are oracles supplied by the environment, since
only geometry is computed by the code under verification. -/

abbrev Rgb := Nat × Nat × Nat

structure PImage where
  mode : String
  width : Nat
  height : Nat
  px : Nat → Nat → Rgb

/-- `round_aspect(y * aspect, key=lambda n: abs(aspect - n / y))` for the
width-constrained branch: the exact value is `bh * w / h`; its floor and
ceiling are compared by distance (over the common denominator `h * bh`) to
the true aspect ratio, floor winning ties, and the result is at least 1. -/
def roundAspectW (w h bh : Nat) : Nat :=
  max
    (if ((w * bh : Int) - (bh * w / h) * h).natAbs ≤
        ((w * bh : Int) - ((bh * w + h - 1) / h) * h).natAbs
     then bh * w / h else (bh * w + h - 1) / h) 1

/-- `round_aspect(x / aspect, key=lambda n: 0 if n == 0 else abs(aspect - x / n))`
for the height-constrained branch: the exact value is `bw * h / w`; a floor of
0 has key 0 and wins immediately; otherwise floor and ceiling are compared by
cross-multiplied distances to the true aspect ratio, floor winning ties; the
result is at least 1. -/
def roundAspectH (w h bw : Nat) : Nat :=
  max
    (if bw * h / w = 0 then bw * h / w
     else if ((w * (bw * h / w) : Int) - bw * h).natAbs * ((bw * h + w - 1) / w) ≤
             ((w * ((bw * h + w - 1) / w) : Int) - bw * h).natAbs * (bw * h / w)
     then bw * h / w else (bw * h + w - 1) / w) 1

/-- `Image.thumbnail`'s target-size computation (Pillow `preserve_aspect_ratio`
with `round_aspect`), in exact integer arithmetic: when the box `(bw, bh)` does
not already contain the image, the constrained dimension is the floor or the
ceiling of the exactly proportional value — whichever is closer to the true
aspect ratio, floor on ties — and at least 1. -/
def thumbnailSize (w h bw bh : Nat) : Nat × Nat :=
  if bw ≥ w ∧ bh ≥ h then (w, h)
  else if bw * h ≥ bh * w then (roundAspectW w h bh, bh)
  else (bw, roundAspectH w h bw)

/-- `img.thumbnail(target_size, LANCZOS)`: no-op when the image already fits;
raises `ZeroDivisionError` (modelled as `Except.error`) when the aspect ratio
`w / h` or the comparison `x / y` divides by zero; otherwise resizes to
`thumbnailSize`, with resampled pixels given by the `resample` oracle. -/
def thumbnailE (resample : PImage → Nat → Nat → Nat → Nat → Rgb)
    (img : PImage) (bw bh : Nat) : Except String PImage :=
  if bw ≥ img.width ∧ bh ≥ img.height then Except.ok img
  else if img.height = 0 ∨ bh = 0 then Except.error "ZeroDivisionError"
  else
    Except.ok ⟨img.mode,
      (thumbnailSize img.width img.height bw bh).1,
      (thumbnailSize img.width img.height bw bh).2,
      resample img (thumbnailSize img.width img.height bw bh).1
        (thumbnailSize img.width img.height bw bh).2⟩

/-- `img.convert('RGB')`: mode becomes RGB, dimensions preserved, pixel data
given by the conversion oracle. -/
def convertRGB (conv : PImage → Nat → Nat → Rgb) (img : PImage) : PImage :=
  ⟨"RGB", img.width, img.height, conv img⟩

/-- `Image.new('RGB', target_size, (0, 0, 0))`. -/
def imageNew (w h : Nat) (color : Rgb) : PImage :=
  ⟨"RGB", w, h, fun _ _ => color⟩

/-- The paste position `(target - width) // 2` of lines 164-165 (Python floor
division on ints, hence `Int.fdiv`). -/
def pasteOffset (outer inner : Nat) : Int :=
  Int.fdiv ((outer : Int) - (inner : Int)) 2

/-- `base.paste(img, (ox, oy))`: pixels inside the pasted rectangle come from
`img`, all others from `base`. -/
def imagePaste (base img : PImage) (ox oy : Int) : PImage :=
  ⟨base.mode, base.width, base.height, fun i j =>
    if ox ≤ (i : Int) ∧ (i : Int) < ox + img.width ∧
       oy ≤ (j : Int) ∧ (j : Int) < oy + img.height
    then img.px ((i : Int) - ox).toNat ((j : Int) - oy).toNat
    else base.px i j⟩

/-- Lines 151-168: convert `RGBA`/`P` to `RGB`, thumbnail to the target box,
create the black canvas of exactly the box size, and paste centered. -/
def processImage (conv : PImage → Nat → Nat → Rgb)
    (resample : PImage → Nat → Nat → Nat → Nat → Rgb)
    (img0 : PImage) (bw bh : Nat) : Except String PImage :=
  match thumbnailE resample
      (if img0.mode = "RGBA" ∨ img0.mode = "P" then convertRGB conv img0 else img0)
      bw bh with
  | Except.error e => Except.error e
  | Except.ok timg =>
    Except.ok (imagePaste (imageNew bw bh (0, 0, 0)) timg
      (pasteOffset bw timg.width) (pasteOffset bh timg.height))

/-- `COVER_SIZES` from `const.py`; a miss models the `KeyError` of
`COVER_SIZES[size]` (the service schema restricts `size` to these two). -/
def coverSizes : String → Option (Nat × Nat)
  | "small" => some (120, 120)
  | "large" => some (160, 160)
  | _ => none

def coverOutputDir : String := "/config/www/display_tools"

/-- The output path used by the call for a given `size` parameter:
`os.path.join(output_dir, "cover.jpeg")` — the source computes it without
consulting `size`. -/
def coverOutputPathFor (_size : String) : String :=
  coverOutputDir ++ "/" ++ "cover.jpeg"

/-- `entity_picture.startswith('/')`. -/
def startsWithSlash (s : String) : Bool :=
  match s.toList with
  | [] => false
  | c :: _ => c = '/'

/-- The image URL of lines 130-134: prefix `http://localhost:<port>` when the
picture reference is a relative path. -/
def coverImageUrl (serverPort : Nat) (entityPicture : String) : String :=
  if startsWithSlash entityPicture then
    "http://localhost:" ++ toString serverPort ++ entityPicture
  else entityPicture

structure HttpResponse where
  status : Nat
  body : List Nat

structure EntityState where
  attributes : List (String × PyVal)

/-- The collaborators of `_download_and_process_cover`: entity/state lookup,
HTTP fetch (an `Except.error` is a raised client exception), image decoding
(`Except.error` is a decode failure of `Image.open`), the two pixel oracles,
and the filesystem operations (`Except.error` is an `OSError`). -/
structure CoverEnv where
  entity : String → Option EntityState
  serverPort : Nat
  fetch : String → Except String HttpResponse
  decode : List Nat → Except String PImage
  conv : PImage → Nat → Nat → Rgb
  resample : PImage → Nat → Nat → Nat → Nat → Rgb
  makeDirs : String → Except String Unit
  save : String → PImage → Except String Unit

/-- The body of the outer `try:` of `_download_and_process_cover`
(lines 116-183). `Except.error` is an exception escaping that block, caught by
the outer `except Exception:` (lines 185-187); the inner image-processing
`try/except` (lines 149-183) is the innermost `match` mapping any processing
error to `False`. -/
def coverBody (env : CoverEnv) (entityId size : String) : Except String Bool :=
  match env.entity entityId with
  | none => Except.ok false
  | some st =>
    match alistGet? st.attributes "entity_picture" with
    | none => Except.ok false
    | some pv =>
      if pyTruthy pv then
        match pv with
        | PyVal.pystr entityPicture =>
          match coverSizes size with
          | none => Except.error "KeyError"
          | some target =>
            match env.fetch (coverImageUrl env.serverPort entityPicture) with
            | Except.error e => Except.error e
            | Except.ok resp =>
              if resp.status ≠ 200 then Except.ok false
              else
                match env.decode resp.body with
                | Except.error _ => Except.ok false
                | Except.ok img =>
                  match processImage env.conv env.resample img target.1 target.2 with
                  | Except.error _ => Except.ok false
                  | Except.ok out =>
                    match env.makeDirs coverOutputDir with
                    | Except.error _ => Except.ok false
                    | Except.ok _ =>
                      match env.save (coverOutputPathFor size) out with
                      | Except.error _ => Except.ok false
                      | Except.ok _ => Except.ok true
        | _ => Except.error "AttributeError"
      else Except.ok false

/-- `_download_and_process_cover` as observed by its caller: the outer
`except Exception:` turns any escaped exception into `False`. -/
def downloadAndProcessCover (env : CoverEnv) (entityId size : String) : Bool :=
  match coverBody env entityId size with
  | Except.ok b => b
  | Except.error _ => false


/-! ## Lemmas about dict assignment and lookup. -/

theorem alistGet?_alistSet {α : Type} (m : List (String × α)) (k j : String) (v : α) :
    alistGet? (alistSet m k v) j = if j = k then some v else alistGet? m j := by
  induction m with
  | nil =>
    simp only [alistSet, alistGet?]
    by_cases h : j = k
    · simp [h]
    · simp [h, Ne.symm h]
  | cons p rest ih =>
    obtain ⟨k0, v0⟩ := p
    simp only [alistSet]
    by_cases h0 : k0 = k
    · subst h0
      simp only [if_pos rfl, alistGet?]
      by_cases h : j = k0
      · simp [h]
      · simp [h, Ne.symm h]
    · rw [if_neg h0]
      simp only [alistGet?]
      by_cases h : k0 = j
      · subst h
        simp [h0]
      · simp [h, ih]

/-! ## C1: characterization of the grouping transform. -/

theorem groupInsert_of_none {acc : List (String × Translations)} {k v : String}
    (h : keyTarget k = none) : groupInsert acc k v = acc := by
  unfold groupInsert; rw [h]

theorem groupInsert_of_some {acc : List (String × Translations)} {k v comp fin : String}
    (h : keyTarget k = some (comp, fin)) :
    groupInsert acc k v =
      alistSet acc comp (alistSet ((alistGet? acc comp).getD []) fin v) := by
  unfold groupInsert; rw [h]

theorem lookupGrouped_groupInsert (acc : List (String × Translations)) (k v c fk : String) :
    lookupGrouped (groupInsert acc k v) c fk =
      if keyTarget k = some (c, fk) then some v else lookupGrouped acc c fk := by
  cases hk : keyTarget k with
  | none =>
    rw [groupInsert_of_none hk, if_neg (by simp)]
  | some p =>
    obtain ⟨comp, fin⟩ := p
    rw [groupInsert_of_some hk]
    unfold lookupGrouped
    rw [alistGet?_alistSet]
    by_cases hc : c = comp
    · subst hc
      rw [if_pos rfl]
      simp only [Option.some_bind]
      rw [alistGet?_alistSet]
      by_cases hf : fk = fin
      · subst hf
        rw [if_pos rfl, if_pos rfl]
      · rw [if_neg hf,
            if_neg (fun hh => by
              simp only [Option.some.injEq, Prod.mk.injEq] at hh
              exact hf hh.2.symm)]
        cases hacc : alistGet? acc c with
        | none => simp [alistGet?]
        | some inner => simp
    · rw [if_neg hc,
          if_neg (fun hh => by
            simp only [Option.some.injEq, Prod.mk.injEq] at hh
            exact hc hh.1.symm)]

/-- C1: for every flat translations mapping `trs`, the grouped result holds a
value at component `c` and inner key `fk` exactly when some key of `trs`
splits (on `.`) into at least 2 segments with first segment the literal
`component`, second segment `c` and last segment `fk` (`keyTarget`); the
value stored there is that of the last such entry in input mapping order —
so keys differing only in middle segments collapse onto the same inner slot
with the later entry winning — and keys not of that shape contribute nothing
to the grouped result (the flat mapping itself is untouched:
`groupTranslations` builds a fresh structure from `trs`). -/
theorem translations_grouping_characterization (trs : Translations) (c fk : String) :
    lookupGrouped (groupTranslations trs) c fk = lastMatchValue trs c fk := by
  induction trs using List.reverseRecOn with
  | nil => rfl
  | append_singleton l a ih =>
    unfold groupTranslations at ih ⊢
    rw [List.foldl_append]
    simp only [List.foldl_cons, List.foldl_nil]
    rw [lookupGrouped_groupInsert]
    unfold lastMatchValue at ih ⊢
    rw [List.filter_append, List.map_append]
    by_cases ha : keyTarget a.1 = some (c, fk)
    · rw [if_pos ha]
      have hf : List.filter (fun kv => decide (keyTarget kv.1 = some (c, fk))) [a] = [a] := by
        simp [List.filter_cons, ha]
      rw [hf]
      simp [List.getLast?_concat]
    · rw [if_neg ha]
      have hf : List.filter (fun kv => decide (keyTarget kv.1 = some (c, fk))) [a] = [] := by
        simp [List.filter_cons, ha]
      rw [hf]
      simpa using ih

/-! ## C6: the translation filter. -/

theorem filter_foldl_lookup (trs : Translations) (k : String) :
    ∀ (ks : List String) (acc : Translations),
      alistGet?
        (ks.foldl (fun acc key => alistSet acc key ((alistGet? trs key).getD key)) acc) k
        = if k ∈ ks then some ((alistGet? trs k).getD k) else alistGet? acc k := by
  intro ks
  induction ks with
  | nil => intro acc; simp
  | cons x xs ih =>
    intro acc
    simp only [List.foldl_cons]
    rw [ih]
    by_cases hx : k ∈ xs
    · rw [if_pos hx, if_pos (List.mem_cons_of_mem x hx)]
    · rw [if_neg hx, alistGet?_alistSet]
      by_cases he : k = x
      · subst he
        rw [if_pos rfl, if_pos (List.mem_cons_self k xs)]
      · rw [if_neg he, if_neg (by simp [List.mem_cons, he, hx])]

/-- C6: for every source mapping and requested key list, each requested key is
present in the filtered result, bound to its source value when the source has
it and to the key's own text otherwise; the `None` sentinel and the empty
list both return the source mapping unchanged. -/
theorem filter_requested_keys_spec (trs : Translations) :
    (∀ (ks : List String) (k : String), k ∈ ks →
       alistGet? (filterTranslationsByKeys trs (some ks)) k
         = some ((alistGet? trs k).getD k)) ∧
    filterTranslationsByKeys trs none = trs ∧
    filterTranslationsByKeys trs (some []) = trs := by
  refine ⟨?_, rfl, rfl⟩
  intro ks k hk
  show alistGet?
      (if ks = [] then trs
       else ks.foldl (fun acc key => alistSet acc key ((alistGet? trs key).getD key)) []) k
      = some ((alistGet? trs k).getD k)
  rw [if_neg (by rintro rfl; simp at hk)]
  rw [filter_foldl_lookup trs k ks []]
  rw [if_pos hk]

/-- Witness for C6 at a concrete mapping: the present key keeps its value,
the absent key falls back to its own text. -/
theorem filter_requested_keys_spec_witness :
    alistGet? (filterTranslationsByKeys [("a", "A")] (some ["a", "b"])) "a" = some "A" ∧
    alistGet? (filterTranslationsByKeys [("a", "A")] (some ["a", "b"])) "b" = some "b" := by
  constructor
  · exact (filter_requested_keys_spec [("a", "A")]).1 ["a", "b"] "a" (by decide)
  · exact (filter_requested_keys_spec [("a", "A")]).1 ["a", "b"] "b" (by decide)

/-! ## C10: frame property of the stored-record update. -/

/-- C10: the persisted record is updated by read-modify-write: starting from
the loaded record, exactly the five fields `language`, `category`,
`grouped_translations`, `translations_count` and `requested_keys_count` are
assigned their new values, and the value of every other field of the
previously stored record is preserved unchanged in the saved record. -/
theorem stored_record_frame (prev : List (String × PyVal)) (language category : String)
    (grouped : List (String × Translations)) (tc kc : Nat) :
    (∀ k : String,
       k ∉ ["language", "category", "grouped_translations",
            "translations_count", "requested_keys_count"] →
       alistGet? (esphomeStoredUpdate (some prev) language category grouped tc kc) k
         = alistGet? prev k) ∧
    alistGet? (esphomeStoredUpdate (some prev) language category grouped tc kc)
      "language" = some (PyVal.pystr language) ∧
    alistGet? (esphomeStoredUpdate (some prev) language category grouped tc kc)
      "category" = some (PyVal.pystr category) ∧
    alistGet? (esphomeStoredUpdate (some prev) language category grouped tc kc)
      "grouped_translations" = some (encodeGrouped grouped) ∧
    alistGet? (esphomeStoredUpdate (some prev) language category grouped tc kc)
      "translations_count" = some (PyVal.pyint (Int.ofNat tc)) ∧
    alistGet? (esphomeStoredUpdate (some prev) language category grouped tc kc)
      "requested_keys_count" = some (PyVal.pyint (Int.ofNat kc)) := by
  refine ⟨?_, ?_, ?_, ?_, ?_, ?_⟩
  · intro k hk
    simp only [List.mem_cons, List.not_mem_nil, or_false, not_or] at hk
    obtain ⟨h1, h2, h3, h4, h5⟩ := hk
    unfold esphomeStoredUpdate
    rw [alistGet?_alistSet, if_neg h5, alistGet?_alistSet, if_neg h4,
        alistGet?_alistSet, if_neg h3, alistGet?_alistSet, if_neg h2,
        alistGet?_alistSet, if_neg h1]
    rfl
  · unfold esphomeStoredUpdate
    rw [alistGet?_alistSet, if_neg (by decide), alistGet?_alistSet, if_neg (by decide),
        alistGet?_alistSet, if_neg (by decide), alistGet?_alistSet, if_neg (by decide),
        alistGet?_alistSet, if_pos rfl]
  · unfold esphomeStoredUpdate
    rw [alistGet?_alistSet, if_neg (by decide), alistGet?_alistSet, if_neg (by decide),
        alistGet?_alistSet, if_neg (by decide), alistGet?_alistSet, if_pos rfl]
  · unfold esphomeStoredUpdate
    rw [alistGet?_alistSet, if_neg (by decide), alistGet?_alistSet, if_neg (by decide),
        alistGet?_alistSet, if_pos rfl]
  · unfold esphomeStoredUpdate
    rw [alistGet?_alistSet, if_neg (by decide), alistGet?_alistSet, if_pos rfl]
  · unfold esphomeStoredUpdate
    rw [alistGet?_alistSet, if_pos rfl]

/-- Witness for C10: a field not among the five updated ones keeps its old
value after a successful update. -/
theorem stored_record_frame_witness :
    alistGet? (esphomeStoredUpdate (some [("my_note", PyVal.pystr "keep")])
        "ru" "state" [] 3 2) "my_note" = some (PyVal.pystr "keep") :=
  (stored_record_frame [("my_note", PyVal.pystr "keep")] "ru" "state" [] 3 2).1
    "my_note" (by decide)

/-! ## Lemmas about `str.strip` and the comma-split fallback. -/

theorem dropLeadingWs_head : ∀ (l : List Char) (c : Char) (cs : List Char),
    dropLeadingWs l = c :: cs → isPyWs c = false := by
  intro l
  induction l with
  | nil => intro c cs h; simp [dropLeadingWs] at h
  | cons a as ih =>
    intro c cs h
    rw [dropLeadingWs] at h
    by_cases ha : isPyWs a = true
    · rw [if_pos ha] at h; exact ih c cs h
    · rw [if_neg ha] at h
      injection h with h1 _
      subst h1
      simpa using ha

theorem dropLeadingWs_cons_nonws (c : Char) (cs : List Char) (h : isPyWs c = false) :
    dropLeadingWs (c :: cs) = c :: cs := by
  rw [dropLeadingWs, if_neg (by simp [h])]

theorem dropTrailingWs_idem :
    ∀ l : List Char, dropTrailingWs (dropTrailingWs l) = dropTrailingWs l := by
  intro l
  induction l with
  | nil => rfl
  | cons c cs ih =>
    rw [dropTrailingWs]
    cases h : dropTrailingWs cs with
    | nil =>
      by_cases hc : isPyWs c = true
      · rw [if_pos hc]; rfl
      · rw [if_neg hc]
        show dropTrailingWs [c] = [c]
        rw [dropTrailingWs]
        show (if isPyWs c then [] else [c]) = [c]
        rw [if_neg hc]
    | cons r rs =>
      rw [h] at ih
      show dropTrailingWs (c :: r :: rs) = c :: r :: rs
      rw [dropTrailingWs, ih]

theorem dropTrailingWs_head_cases (a : Char) (as : List Char) :
    dropTrailingWs (a :: as) = [] ∨ ∃ r, dropTrailingWs (a :: as) = a :: r := by
  rw [dropTrailingWs]
  cases dropTrailingWs as with
  | nil =>
    by_cases ha : isPyWs a = true
    · left; rw [if_pos ha]
    · right; exact ⟨[], by rw [if_neg ha]⟩
  | cons r rs => right; exact ⟨r :: rs, rfl⟩

theorem pyStrip_idem (s : String) : pyStrip (pyStrip s) = pyStrip s := by
  unfold pyStrip
  have htl : ∀ l : List Char, (String.mk l).toList = l := fun _ => rfl
  rw [htl]
  congr 1
  cases hx : dropLeadingWs s.toList with
  | nil => rfl
  | cons a as =>
    have ha : isPyWs a = false := dropLeadingWs_head _ a as hx
    rcases dropTrailingWs_head_cases a as with h | ⟨r, h⟩
    · rw [h]; rfl
    · rw [h, dropLeadingWs_cons_nonws a r ha, ← h]
      exact dropTrailingWs_idem (a :: as)

theorem cleanSplit_elems (s : String) : ∀ k ∈ cleanSplit s, pyStrip k = k ∧ k ≠ "" := by
  intro k hk
  unfold cleanSplit at hk
  rw [List.mem_filter] at hk
  obtain ⟨hmem, hne⟩ := hk
  rw [List.mem_map] at hmem
  obtain ⟨x, _, rfl⟩ := hmem
  refine ⟨pyStrip_idem x, ?_⟩
  intro he
  rw [he] at hne
  simp at hne

/-! ## The two-stage JSON-then-comma-split policy of the normalizer. -/

theorem normalizeKeysE_pystr (s : String) :
    normalizeKeysE (PyVal.pystr s) =
      match jsonLoads s with
      | Except.ok v => Except.ok (some v)
      | Except.error _ =>
        Except.ok (some (PyVal.pylist ((cleanSplit s).map PyVal.pystr))) := rfl

theorem normalizeKeysE_pylist_single_str (s : String) :
    normalizeKeysE (PyVal.pylist [PyVal.pystr s]) =
      match jsonLoads s with
      | Except.ok v => Except.ok (some v)
      | Except.error _ =>
        Except.ok (some (PyVal.pylist ((cleanSplit s).map PyVal.pystr))) := rfl

theorem normalizeKeys_not_none (raw : PyVal) (h : raw ≠ PyVal.pynone) :
    normalizeKeys raw =
      match normalizeKeysE raw with
      | Except.ok keys => keys
      | Except.error _ => none := by
  cases raw
  · exact absurd rfl h
  all_goals rfl

/-- C2: the single-element special case applies only to lists of length
exactly 1: any list with two or more elements passes through unchanged (no
comma-splitting of its elements), e.g. `["a,b", "c"]` stays `["a,b", "c"]`,
whereas the one-element list `["a,b,c"]` (whose sole element is not JSON) is
comma-split into `["a", "b", "c"]`. -/
theorem keys_singleton_split_only :
    (∀ xs : List PyVal, 2 ≤ xs.length →
       normalizeKeys (PyVal.pylist xs) = some (PyVal.pylist xs)) ∧
    normalizeKeys (PyVal.pylist [PyVal.pystr "a,b", PyVal.pystr "c"]) =
      some (PyVal.pylist [PyVal.pystr "a,b", PyVal.pystr "c"]) ∧
    normalizeKeys (PyVal.pylist [PyVal.pystr "a,b,c"]) =
      some (PyVal.pylist [PyVal.pystr "a", PyVal.pystr "b", PyVal.pystr "c"]) := by
  refine ⟨?_, rfl, rfl⟩
  intro xs h
  rcases xs with _ | ⟨x, _ | ⟨y, rest⟩⟩
  · simp at h
  · simp at h
  · rfl

/-- Witness for C2: a concrete three-element list is used as-is. -/
theorem keys_singleton_split_only_witness :
    normalizeKeys (PyVal.pylist [PyVal.pystr "p", PyVal.pystr "q", PyVal.pystr "r"]) =
      some (PyVal.pylist [PyVal.pystr "p", PyVal.pystr "q", PyVal.pystr "r"]) :=
  keys_singleton_split_only.1
    [PyVal.pystr "p", PyVal.pystr "q", PyVal.pystr "r"] (by decide)

/-- C5: the normalizer never raises to its caller. A `None` input directly
yields the no-filter sentinel, and on every other modelled input the body of
the `try:` block completes without an exception (`Except.ok`) — the bare
`except Exception:` handler, which `normalizeKeys` models by mapping any
`Except.error` to the sentinel, therefore never propagates anything. -/
theorem keys_normalizer_total :
    normalizeKeys PyVal.pynone = none ∧
    ∀ raw : PyVal, ∃ r : Option PyVal, normalizeKeysE raw = Except.ok r := by
  refine ⟨rfl, ?_⟩
  intro raw
  cases raw with
  | pylist items =>
    rcases items with _ | ⟨single, _ | ⟨y, rest⟩⟩
    · exact ⟨_, rfl⟩
    · cases single with
      | pystr s =>
        cases hj : jsonLoads s with
        | ok v => exact ⟨some v, by rw [normalizeKeysE_pylist_single_str, hj]⟩
        | error e => exact ⟨_, by rw [normalizeKeysE_pylist_single_str, hj]⟩
      | pynone => exact ⟨_, rfl⟩
      | pybool b => exact ⟨_, rfl⟩
      | pyint n => exact ⟨_, rfl⟩
      | pyfloat fr => exact ⟨_, rfl⟩
      | pylist l => exact ⟨_, rfl⟩
      | pydict d => exact ⟨_, rfl⟩
    · exact ⟨_, rfl⟩
  | pystr s =>
    cases hj : jsonLoads s with
    | ok v => exact ⟨some v, by rw [normalizeKeysE_pystr, hj]⟩
    | error e => exact ⟨_, by rw [normalizeKeysE_pystr, hj]⟩
  | pynone => exact ⟨_, rfl⟩
  | pybool b => exact ⟨_, rfl⟩
  | pyint n => exact ⟨_, rfl⟩
  | pyfloat fr => exact ⟨_, rfl⟩
  | pydict d => exact ⟨_, rfl⟩

/-- Counterexample to C3 as stated: the JSON-parse path performs no trimming,
no dropping of empty pieces and no string coercion — the non-null input
`['[""]']` yields the keys result `[""]`, whose element is empty after
trimming. -/
theorem keys_invariant_fails_on_json_path :
    normalizeKeys (PyVal.pylist [PyVal.pystr "[\"\"]"]) =
      some (PyVal.pylist [PyVal.pystr ""]) ∧ pyStrip "" = "" :=
  ⟨rfl, rfl⟩

/-- C3 amended: the invariant (string elements, non-empty after trimming,
first-seen input order) holds on the comma-split paths — for every string
whose JSON parse fails, both the bare-string path and the one-element-list
path produce exactly `cleanSplit s` (pieces in split order), every element of
which is trim-fixed and non-empty. On the JSON-parse, multi-element-list and
generic-iterable paths the elements pass through unvalidated. -/
theorem keys_comma_split_invariant (s e : String) (h : jsonLoads s = Except.error e) :
    ∃ ks : List String,
      normalizeKeys (PyVal.pystr s) = some (PyVal.pylist (ks.map PyVal.pystr)) ∧
      normalizeKeys (PyVal.pylist [PyVal.pystr s]) =
        some (PyVal.pylist (ks.map PyVal.pystr)) ∧
      ks = cleanSplit s ∧
      ∀ k ∈ ks, pyStrip k = k ∧ k ≠ "" := by
  refine ⟨cleanSplit s, ?_, ?_, rfl, cleanSplit_elems s⟩
  · rw [normalizeKeys_not_none _ (fun hh => PyVal.noConfusion hh),
        normalizeKeysE_pystr, h]
  · rw [normalizeKeys_not_none _ (fun hh => PyVal.noConfusion hh),
        normalizeKeysE_pylist_single_str, h]

/-- Witness for the amended C3: `"a, ,b,"` fails JSON parsing and is split
into the trimmed non-empty pieces `["a", "b"]`. -/
theorem keys_comma_split_invariant_witness :
    normalizeKeys (PyVal.pystr "a, ,b,") =
      some (PyVal.pylist [PyVal.pystr "a", PyVal.pystr "b"]) := by
  obtain ⟨ks, h1, h2, h3, h4⟩ :=
    keys_comma_split_invariant "a, ,b," "Expecting value" rfl
  rw [h3] at h1
  exact h1

/-- Counterexample to C4 as stated: `json.loads` accepts any JSON value, not
only arrays — for the string input `"5"` (not a JSON array, so the claim
prescribes the comma-split result `["5"]`) the code instead binds the bare
integer `5`, which is not a list of elements at all. -/
theorem keys_json_scalar_passthrough :
    normalizeKeys (PyVal.pystr "5") = some (PyVal.pyint 5) ∧
    ∀ elems : List PyVal, PyVal.pyint 5 ≠ PyVal.pylist elems :=
  ⟨rfl, fun _ h => nomatch h⟩

/-- C4 amended: for every string input (bare or as the sole element of a
one-element list) the code first attempts `json.loads`; on success the parsed
value — whatever its JSON type — becomes the keys result as-is (in particular
a JSON array contributes its elements, e.g. `'["x","y"]'` yields
`["x","y"]`), and only on parse failure is the string comma-split with
trimming and dropping of empty pieces. -/
theorem keys_json_first_policy (s : String) :
    (∀ v : PyVal, jsonLoads s = Except.ok v →
       normalizeKeys (PyVal.pystr s) = some v ∧
       normalizeKeys (PyVal.pylist [PyVal.pystr s]) = some v) ∧
    (∀ e : String, jsonLoads s = Except.error e →
       normalizeKeys (PyVal.pystr s) =
         some (PyVal.pylist ((cleanSplit s).map PyVal.pystr)) ∧
       normalizeKeys (PyVal.pylist [PyVal.pystr s]) =
         some (PyVal.pylist ((cleanSplit s).map PyVal.pystr))) ∧
    normalizeKeys (PyVal.pystr "[\"x\",\"y\"]") =
      some (PyVal.pylist [PyVal.pystr "x", PyVal.pystr "y"]) := by
  refine ⟨?_, ?_, rfl⟩
  · intro v h
    constructor
    · rw [normalizeKeys_not_none _ (fun hh => PyVal.noConfusion hh),
          normalizeKeysE_pystr, h]
    · rw [normalizeKeys_not_none _ (fun hh => PyVal.noConfusion hh),
          normalizeKeysE_pylist_single_str, h]
  · intro e h
    constructor
    · rw [normalizeKeys_not_none _ (fun hh => PyVal.noConfusion hh),
          normalizeKeysE_pystr, h]
    · rw [normalizeKeys_not_none _ (fun hh => PyVal.noConfusion hh),
          normalizeKeysE_pylist_single_str, h]

/-- Witness for the amended C4: the JSON success path on a one-element list,
and the comma-split fallback on a bare string. -/
theorem keys_json_first_policy_witness :
    normalizeKeys (PyVal.pylist [PyVal.pystr "[\"x\"]"]) =
      some (PyVal.pylist [PyVal.pystr "x"]) ∧
    normalizeKeys (PyVal.pystr "x,y") =
      some (PyVal.pylist [PyVal.pystr "x", PyVal.pystr "y"]) := by
  constructor
  · exact ((keys_json_first_policy "[\"x\"]").1 (PyVal.pylist [PyVal.pystr "x"]) rfl).2
  · exact ((keys_json_first_policy "x,y").2.1 "Expecting value" rfl).1

/-! ## C9: geometry of the cover resize. -/

theorem roundAspectW_le (w h bh m : Nat) (hh : 0 < h) (hm : 1 ≤ m)
    (hb : bh * w ≤ m * h) : roundAspectW w h bh ≤ m := by
  unfold roundAspectW
  have hc : (bh * w + h - 1) / h ≤ m := by
    have hlt : (bh * w + h - 1) / h < m + 1 := by
      rw [Nat.div_lt_iff_lt_mul hh]
      have he : (m + 1) * h = m * h + h := by ring
      omega
    omega
  have hf : bh * w / h ≤ (bh * w + h - 1) / h := Nat.div_le_div_right (by omega)
  refine max_le ?_ hm
  split
  · exact le_trans hf hc
  · exact hc

theorem roundAspectH_le (w h bw m : Nat) (hw : 0 < w) (hm : 1 ≤ m)
    (hb : bw * h ≤ m * w) : roundAspectH w h bw ≤ m := by
  unfold roundAspectH
  have hc : (bw * h + w - 1) / w ≤ m := by
    have hlt : (bw * h + w - 1) / w < m + 1 := by
      rw [Nat.div_lt_iff_lt_mul hw]
      have he : (m + 1) * w = m * w + w := by ring
      omega
    omega
  have hf : bw * h / w ≤ (bw * h + w - 1) / w := Nat.div_le_div_right (by omega)
  refine max_le ?_ hm
  split
  · exact le_trans hf hc
  · split
    · exact le_trans hf hc
    · exact hc

theorem thumbnailSize_bounds (w h bw bh : Nat)
    (hw : 1 ≤ w) (hh : 1 ≤ h) (hbw : 1 ≤ bw) (hbh : 1 ≤ bh) :
    (thumbnailSize w h bw bh).1 ≤ bw ∧ (thumbnailSize w h bw bh).2 ≤ bh ∧
    (thumbnailSize w h bw bh).1 ≤ w ∧ (thumbnailSize w h bw bh).2 ≤ h := by
  unfold thumbnailSize
  by_cases hg : bw ≥ w ∧ bh ≥ h
  · rw [if_pos hg]
    exact ⟨hg.1, hg.2, le_refl w, le_refl h⟩
  · rw [if_neg hg]
    by_cases hbr : bw * h ≥ bh * w
    · rw [if_pos hbr]
      have hbh_lt : bh < h := by
        by_contra hcon
        push_neg at hcon
        apply hg
        constructor
        · have h1 : h * w ≤ bh * w := Nat.mul_le_mul_right w hcon
          have h3 : h * w = w * h := Nat.mul_comm h w
          have h4 : w * h ≤ bw * h := by omega
          exact Nat.le_of_mul_le_mul_right h4 hh
        · exact hcon
      refine ⟨?_, le_refl bh, ?_, le_of_lt hbh_lt⟩
      · exact roundAspectW_le w h bh bw hh hbw hbr
      · refine roundAspectW_le w h bh w hh hw ?_
        have h1 : bh * w ≤ h * w := Nat.mul_le_mul_right w (le_of_lt hbh_lt)
        have h2 : h * w = w * h := Nat.mul_comm h w
        omega
    · rw [if_neg hbr]
      push_neg at hbr
      have hbw_lt : bw < w := by
        by_contra hcon
        push_neg at hcon
        have hbh_lt : bh < h := by
          by_contra hcon2
          push_neg at hcon2
          exact hg ⟨hcon, hcon2⟩
        have e1 : w * h ≤ bw * h := Nat.mul_le_mul_right h hcon
        have e2 : (bh + 1) * w ≤ h * w := Nat.mul_le_mul_right w (by omega)
        have e3 : (bh + 1) * w = bh * w + w := by ring
        have e4 : w * h = h * w := Nat.mul_comm w h
        omega
      refine ⟨le_refl bw, ?_, le_of_lt hbw_lt, ?_⟩
      · exact roundAspectH_le w h bw bh (by omega) hbh (le_of_lt hbr)
      · refine roundAspectH_le w h bw h (by omega) hh ?_
        have e1 : bw * h ≤ w * h := Nat.mul_le_mul_right h (le_of_lt hbw_lt)
        have e2 : w * h = h * w := Nat.mul_comm w h
        omega

theorem thumbnailE_fits (resample : PImage → Nat → Nat → Nat → Nat → Rgb)
    (img : PImage) (bw bh : Nat) (hg : bw ≥ img.width ∧ bh ≥ img.height) :
    thumbnailE resample img bw bh = Except.ok img := by
  unfold thumbnailE
  rw [if_pos hg]

theorem thumbnailE_shrink (resample : PImage → Nat → Nat → Nat → Nat → Rgb)
    (img : PImage) (bw bh : Nat)
    (hg : ¬(bw ≥ img.width ∧ bh ≥ img.height)) (hh : img.height ≠ 0) (hbh : bh ≠ 0) :
    thumbnailE resample img bw bh =
      Except.ok ⟨img.mode, (thumbnailSize img.width img.height bw bh).1,
        (thumbnailSize img.width img.height bw bh).2,
        resample img (thumbnailSize img.width img.height bw bh).1
          (thumbnailSize img.width img.height bw bh).2⟩ := by
  unfold thumbnailE
  have hz : ¬(img.height = 0 ∨ bh = 0) := by
    rintro (hzz | hzz)
    · exact hh hzz
    · exact hbh hzz
  rw [if_neg hg, if_neg hz]

theorem processImage_eq (conv : PImage → Nat → Nat → Rgb)
    (resample : PImage → Nat → Nat → Nat → Nat → Rgb)
    (img0 : PImage) (bw bh : Nat) (timg : PImage)
    (hte : thumbnailE resample
        (if img0.mode = "RGBA" ∨ img0.mode = "P" then convertRGB conv img0 else img0)
        bw bh = Except.ok timg) :
    processImage conv resample img0 bw bh =
      Except.ok (imagePaste (imageNew bw bh (0, 0, 0)) timg
        (pasteOffset bw timg.width) (pasteOffset bh timg.height)) := by
  unfold processImage
  rw [hte]

theorem imagePaste_outside (base img : PImage) (ox oy : Int) (i j : Nat)
    (hnot : ¬(ox ≤ (i : Int) ∧ (i : Int) < ox + img.width ∧
              oy ≤ (j : Int) ∧ (j : Int) < oy + img.height)) :
    (imagePaste base img ox oy).px i j = base.px i j := by
  show (if ox ≤ (i : Int) ∧ (i : Int) < ox + img.width ∧
           oy ≤ (j : Int) ∧ (j : Int) < oy + img.height
        then img.px ((i : Int) - ox).toNat ((j : Int) - oy).toNat
        else base.px i j) = base.px i j
  exact if_neg hnot

/-- C9: for every decoded source image (positive dimensions) and positive
target box, the processing shrinks to `thumbnailSize` — which fits inside the
box and never exceeds the original resolution — then builds the result as an
opaque black `RGB` canvas of exactly the box dimensions with the shrunk image
pasted at offset `((bw - width) // 2, (bh - height) // 2)` (Python floor
division, biasing odd remainders toward the top-left); every pixel outside
the pasted rectangle is black. -/
theorem cover_resize_geometry (m : String) (w h bw bh : Nat)
    (px0 : Nat → Nat → Rgb) (conv : PImage → Nat → Nat → Rgb)
    (resample : PImage → Nat → Nat → Nat → Nat → Rgb)
    (hw : 1 ≤ w) (hh : 1 ≤ h) (hbw : 1 ≤ bw) (hbh : 1 ≤ bh) :
    (thumbnailSize w h bw bh).1 ≤ bw ∧ (thumbnailSize w h bw bh).2 ≤ bh ∧
    (thumbnailSize w h bw bh).1 ≤ w ∧ (thumbnailSize w h bw bh).2 ≤ h ∧
    ∃ timg : PImage,
      timg.width = (thumbnailSize w h bw bh).1 ∧
      timg.height = (thumbnailSize w h bw bh).2 ∧
      processImage conv resample ⟨m, w, h, px0⟩ bw bh =
        Except.ok (imagePaste (imageNew bw bh (0, 0, 0)) timg
          (pasteOffset bw timg.width) (pasteOffset bh timg.height)) ∧
      ∀ i j : Nat,
        ¬(pasteOffset bw timg.width ≤ (i : Int) ∧
          (i : Int) < pasteOffset bw timg.width + timg.width ∧
          pasteOffset bh timg.height ≤ (j : Int) ∧
          (j : Int) < pasteOffset bh timg.height + timg.height) →
        (imagePaste (imageNew bw bh (0, 0, 0)) timg
          (pasteOffset bw timg.width) (pasteOffset bh timg.height)).px i j = (0, 0, 0) := by
  obtain ⟨b1, b2, b3, b4⟩ := thumbnailSize_bounds w h bw bh hw hh hbw hbh
  have hpx : ∀ (T : PImage) (i j : Nat),
      ¬(pasteOffset bw T.width ≤ (i : Int) ∧
        (i : Int) < pasteOffset bw T.width + T.width ∧
        pasteOffset bh T.height ≤ (j : Int) ∧
        (j : Int) < pasteOffset bh T.height + T.height) →
      (imagePaste (imageNew bw bh (0, 0, 0)) T
        (pasteOffset bw T.width) (pasteOffset bh T.height)).px i j = (0, 0, 0) :=
    fun T i j hnot =>
      (imagePaste_outside (imageNew bw bh (0, 0, 0)) T
        (pasteOffset bw T.width) (pasteOffset bh T.height) i j hnot).trans rfl
  refine ⟨b1, b2, b3, b4, ?_⟩
  by_cases hg : bw ≥ w ∧ bh ≥ h
  · have hts : thumbnailSize w h bw bh = (w, h) := by
      unfold thumbnailSize; rw [if_pos hg]
    by_cases hm : m = "RGBA" ∨ m = "P"
    · have hte : thumbnailE resample
          (if m = "RGBA" ∨ m = "P" then convertRGB conv ⟨m, w, h, px0⟩ else ⟨m, w, h, px0⟩)
          bw bh = Except.ok (convertRGB conv ⟨m, w, h, px0⟩) := by
        rw [if_pos hm]
        exact thumbnailE_fits resample _ bw bh ⟨hg.1, hg.2⟩
      refine ⟨convertRGB conv ⟨m, w, h, px0⟩, ?_, ?_,
        processImage_eq conv resample _ bw bh _ hte, hpx _⟩
      · rw [hts]; rfl
      · rw [hts]; rfl
    · have hte : thumbnailE resample
          (if m = "RGBA" ∨ m = "P" then convertRGB conv ⟨m, w, h, px0⟩ else ⟨m, w, h, px0⟩)
          bw bh = Except.ok ⟨m, w, h, px0⟩ := by
        rw [if_neg hm]
        exact thumbnailE_fits resample _ bw bh ⟨hg.1, hg.2⟩
      refine ⟨⟨m, w, h, px0⟩, ?_, ?_,
        processImage_eq conv resample _ bw bh _ hte, hpx _⟩
      · rw [hts]
      · rw [hts]
  · by_cases hm : m = "RGBA" ∨ m = "P"
    · have hte : thumbnailE resample
          (if m = "RGBA" ∨ m = "P" then convertRGB conv ⟨m, w, h, px0⟩ else ⟨m, w, h, px0⟩)
          bw bh = Except.ok ⟨"RGB", (thumbnailSize w h bw bh).1, (thumbnailSize w h bw bh).2,
            resample (convertRGB conv ⟨m, w, h, px0⟩) (thumbnailSize w h bw bh).1
              (thumbnailSize w h bw bh).2⟩ := by
        rw [if_pos hm]
        exact thumbnailE_shrink resample _ bw bh hg
          (by show h ≠ 0; omega) (by show bh ≠ 0; omega)
      exact ⟨_, rfl, rfl, processImage_eq conv resample _ bw bh _ hte, hpx _⟩
    · have hte : thumbnailE resample
          (if m = "RGBA" ∨ m = "P" then convertRGB conv ⟨m, w, h, px0⟩ else ⟨m, w, h, px0⟩)
          bw bh = Except.ok ⟨m, (thumbnailSize w h bw bh).1, (thumbnailSize w h bw bh).2,
            resample ⟨m, w, h, px0⟩ (thumbnailSize w h bw bh).1
              (thumbnailSize w h bw bh).2⟩ := by
        rw [if_neg hm]
        exact thumbnailE_shrink resample _ bw bh hg
          (by show h ≠ 0; omega) (by show bh ≠ 0; omega)
      exact ⟨_, rfl, rfl, processImage_eq conv resample _ bw bh _ hte, hpx _⟩

/-- Witness for C9: the spec example — a 1000×1 source into the 120×120 box
shrinks to exactly 120×1, which fits the box. -/
theorem cover_resize_geometry_witness :
    (thumbnailSize 1000 1 120 120).1 ≤ 120 ∧ (thumbnailSize 1000 1 120 120).2 ≤ 120 ∧
    thumbnailSize 1000 1 120 120 = (120, 1) := by
  refine ⟨?_, ?_, by decide⟩
  · exact (cover_resize_geometry "RGB" 1000 1 120 120 (fun _ _ => (0, 0, 0))
      (fun _ _ _ => (0, 0, 0)) (fun _ _ _ _ _ => (0, 0, 0))
      (by decide) (by decide) (by decide) (by decide)).1
  · exact (cover_resize_geometry "RGB" 1000 1 120 120 (fun _ _ => (0, 0, 0))
      (fun _ _ _ => (0, 0, 0)) (fun _ _ _ _ _ => (0, 0, 0))
      (by decide) (by decide) (by decide) (by decide)).2.1

/-! ## C7: the cover operation degrades every failure to `false`. -/

/-- C7: `_download_and_process_cover` always hands its caller a boolean: any
exception escaping the body is caught by the outer handler and becomes
`false`; each of the listed failure modes — entity not found, missing or
falsy `entity_picture`, non-200 HTTP status, image decode error — yields
`false`; and `true` is returned only when every stage (entity lookup,
picture attribute, size lookup, download with status 200, decode, resize,
directory creation and save) succeeded. -/
theorem cover_failure_boundary (env : CoverEnv) (entityId size : String) :
    (∀ e, coverBody env entityId size = Except.error e →
       downloadAndProcessCover env entityId size = false) ∧
    (env.entity entityId = none → downloadAndProcessCover env entityId size = false) ∧
    (∀ st, env.entity entityId = some st →
       alistGet? st.attributes "entity_picture" = none →
       downloadAndProcessCover env entityId size = false) ∧
    (∀ st pv, env.entity entityId = some st →
       alistGet? st.attributes "entity_picture" = some pv → pyTruthy pv = false →
       downloadAndProcessCover env entityId size = false) ∧
    (∀ st pic target resp, env.entity entityId = some st →
       alistGet? st.attributes "entity_picture" = some (PyVal.pystr pic) →
       pyTruthy (PyVal.pystr pic) = true →
       coverSizes size = some target →
       env.fetch (coverImageUrl env.serverPort pic) = Except.ok resp →
       resp.status ≠ 200 →
       downloadAndProcessCover env entityId size = false) ∧
    (∀ st pic target resp e, env.entity entityId = some st →
       alistGet? st.attributes "entity_picture" = some (PyVal.pystr pic) →
       pyTruthy (PyVal.pystr pic) = true →
       coverSizes size = some target →
       env.fetch (coverImageUrl env.serverPort pic) = Except.ok resp →
       resp.status = 200 →
       env.decode resp.body = Except.error e →
       downloadAndProcessCover env entityId size = false) ∧
    (downloadAndProcessCover env entityId size = true →
       ∃ st pic target resp img out,
         env.entity entityId = some st ∧
         alistGet? st.attributes "entity_picture" = some (PyVal.pystr pic) ∧
         pyTruthy (PyVal.pystr pic) = true ∧
         coverSizes size = some target ∧
         env.fetch (coverImageUrl env.serverPort pic) = Except.ok resp ∧
         resp.status = 200 ∧
         env.decode resp.body = Except.ok img ∧
         processImage env.conv env.resample img target.1 target.2 = Except.ok out ∧
         env.makeDirs coverOutputDir = Except.ok () ∧
         env.save (coverOutputPathFor size) out = Except.ok ()) := by
  refine ⟨?_, ?_, ?_, ?_, ?_, ?_, ?_⟩
  · intro e he
    unfold downloadAndProcessCover
    rw [he]
  · intro hent
    unfold downloadAndProcessCover coverBody
    rw [hent]
  · intro st hent hpic
    unfold downloadAndProcessCover coverBody
    simp [hent, hpic]
  · intro st pv hent hpic htr
    unfold downloadAndProcessCover coverBody
    simp [hent, hpic, htr]
  · intro st pic target resp hent hpic htr hsz hft hst
    unfold downloadAndProcessCover coverBody
    simp [hent, hpic, htr, hsz, hft, hst]
  · intro st pic target resp e hent hpic htr hsz hft hst hdec
    unfold downloadAndProcessCover coverBody
    simp [hent, hpic, htr, hsz, hft, hst, hdec]
  · intro htrue
    unfold downloadAndProcessCover at htrue
    cases hcb : coverBody env entityId size with
    | error e => rw [hcb] at htrue; simp at htrue
    | ok b =>
      rw [hcb] at htrue
      simp only at htrue
      subst htrue
      unfold coverBody at hcb
      cases hent : env.entity entityId with
      | none => simp [hent] at hcb
      | some st =>
        simp only [hent] at hcb
        cases hpic : alistGet? st.attributes "entity_picture" with
        | none => simp [hpic] at hcb
        | some pv =>
          simp only [hpic] at hcb
          cases htr : pyTruthy pv with
          | false => simp [htr] at hcb
          | true =>
            rw [if_pos htr] at hcb
            cases pv with
            | pystr pic =>
              cases hsz : coverSizes size with
              | none => simp [hsz] at hcb
              | some target =>
                simp only [hsz] at hcb
                cases hft : env.fetch (coverImageUrl env.serverPort pic) with
                | error e => simp [hft] at hcb
                | ok resp =>
                  simp only [hft] at hcb
                  by_cases hst : resp.status = 200
                  · rw [if_neg (fun hne => hne hst)] at hcb
                    cases hdec : env.decode resp.body with
                    | error e => simp [hdec] at hcb
                    | ok img =>
                      simp only [hdec] at hcb
                      cases hpi : processImage env.conv env.resample img target.1 target.2 with
                      | error e => simp [hpi] at hcb
                      | ok out =>
                        simp only [hpi] at hcb
                        cases hmd : env.makeDirs coverOutputDir with
                        | error e => simp [hmd] at hcb
                        | ok u =>
                          simp only [hmd] at hcb
                          cases hsv : env.save (coverOutputPathFor size) out with
                          | error e => simp [hsv] at hcb
                          | ok u2 =>
                            cases u
                            cases u2
                            exact ⟨st, pic, target, resp, img, out, rfl, hpic, htr,
                              rfl, hft, hst, hdec, hpi, rfl, hsv⟩
                  · rw [if_pos hst] at hcb
                    simp at hcb
            | pynone => simp at hcb
            | pybool b => simp at hcb
            | pyint n => simp at hcb
            | pyfloat fr => simp at hcb
            | pylist l => simp at hcb
            | pydict d => simp at hcb

/-- Witness for C7: in an environment whose HTTP fetch raises, the exception
is caught and the operation reports `false`; in an environment where every
stage succeeds, it reports `true`. -/
theorem cover_failure_boundary_witness :
    downloadAndProcessCover
      (⟨fun _ => some ⟨[("entity_picture", PyVal.pystr "/pic.jpg")]⟩, 8123,
        fun _ => Except.error "boom",
        fun _ => Except.error "nope",
        fun _ _ _ => (0, 0, 0), fun _ _ _ _ _ => (0, 0, 0),
        fun _ => Except.ok (), fun _ _ => Except.ok ()⟩ : CoverEnv)
      "media_player.bed" "small" = false ∧
    downloadAndProcessCover
      (⟨fun _ => some ⟨[("entity_picture", PyVal.pystr "/pic.jpg")]⟩, 8123,
        fun _ => Except.ok ⟨200, []⟩,
        fun _ => Except.ok ⟨"RGB", 10, 10, fun _ _ => (1, 2, 3)⟩,
        fun _ _ _ => (0, 0, 0), fun _ _ _ _ _ => (0, 0, 0),
        fun _ => Except.ok (), fun _ _ => Except.ok ()⟩ : CoverEnv)
      "media_player.bed" "small" = true :=
  ⟨(cover_failure_boundary
      (⟨fun _ => some ⟨[("entity_picture", PyVal.pystr "/pic.jpg")]⟩, 8123,
        fun _ => Except.error "boom",
        fun _ => Except.error "nope",
        fun _ _ _ => (0, 0, 0), fun _ _ _ _ _ => (0, 0, 0),
        fun _ => Except.ok (), fun _ _ => Except.ok ()⟩ : CoverEnv)
      "media_player.bed" "small").1 "boom" rfl,
   rfl⟩

/-! ## C8: the output path of `save_media_cover`. -/

/-- Counterexample to C8 as stated: the output filename is not a function of
`size` that distinguishes the presets — the two distinct size presets write
the very same path. -/
theorem cover_path_not_size_dependent :
    coverOutputPathFor "small" = coverOutputPathFor "large" ∧ "small" ≠ "large" :=
  ⟨rfl, by decide⟩

/-- C8 amended: the output path is the single fixed
`/config/www/display_tools/cover.jpeg` for every `size` argument — one
physical file, overwritten on every call; the filename does not depend on the
size preset. -/
theorem cover_path_constant :
    ∀ size : String, coverOutputPathFor size = "/config/www/display_tools/cover.jpeg" :=
  fun _ => rfl
